/-
Verification of the TC3-HMAC-SHA256 signing core of the
tencentcloud-sms-sdk-rust repository (src/core/signature.rs).

The embedding models:
  - bytes as `Nat` (kept < 256 by construction),
  - Rust `String` values as Lean `String` (Rust string comparison is
    byte-wise over UTF-8, which coincides with code-point-wise comparison
    on `List Char`, the order used by Lean and Mathlib's `LinearOrder String`),
  - `HashMap<String, String>` as an association list `List (String × String)`
    recording one iteration order; the code sorts before use, and
    order-independence is proved as a theorem,
  - `DateTime<Utc>` as `Int` epoch seconds (the code only uses
    `timestamp()` and `format("%Y%m%d")`, both functions of epoch seconds;
    chrono's civil-date conversion is the standard proleptic-Gregorian
    days-to-date algorithm reproduced in `civilFromDays`),
  - `Result<T>` as `Except TencentCloudError T`,
  - the `hmac`/`sha2` crates by a full executable SHA-256 / HMAC-SHA256
    implementation on byte lists,
  - `str::to_lowercase` on its ASCII fragment (header names in this SDK are
    ASCII), `str::trim` with the Unicode White_Space set,
  - `url::form_urlencoded::byte_serialize` byte-for-byte
    (space to '+', bytes other than ASCII alphanumerics and `*-._`
    percent-encoded with uppercase hex),
  - Rust's stable `sort`/`sort_by` on vectors as Mathlib's stable
    `List.insertionSort`.
-/
import Mathlib

/-! Basic 32-bit word operations on `Nat`, truncating modulo 2^32. -/

def add32 (a b : Nat) : Nat := (a + b) % 4294967296

def rotr32 (n x : Nat) : Nat := ((x >>> n) ||| (x <<< (32 - n))) % 4294967296

def smallSigma0 (x : Nat) : Nat := (rotr32 7 x) ^^^ (rotr32 18 x) ^^^ (x >>> 3)

def smallSigma1 (x : Nat) : Nat := (rotr32 17 x) ^^^ (rotr32 19 x) ^^^ (x >>> 10)

def bigSigma0 (x : Nat) : Nat := (rotr32 2 x) ^^^ (rotr32 13 x) ^^^ (rotr32 22 x)

def bigSigma1 (x : Nat) : Nat := (rotr32 6 x) ^^^ (rotr32 11 x) ^^^ (rotr32 25 x)

/-- Big-endian byte rendering of a value into `count` bytes. -/
def toBytesBE : Nat → Nat → List Nat
  | 0, _ => []
  | n + 1, v => ((v >>> (8 * n)) % 256) :: toBytesBE n v

/-! SHA-256, as specified in FIPS 180-4, on lists of bytes. -/

def sha256K : List Nat :=
  [1116352408, 1899447441, 3049323471, 3921009573,
   961987163, 1508970993, 2453635748, 2870763221,
   3624381080, 310598401, 607225278, 1426881987,
   1925078388, 2162078206, 2614888103, 3248222580,
   3835390401, 4022224774, 264347078, 604807628,
   770255983, 1249150122, 1555081692, 1996064986,
   2554220882, 2821834349, 2952996808, 3210313671,
   3336571891, 3584528711, 113926993, 338241895,
   666307205, 773529912, 1294757372, 1396182291,
   1695183700, 1986661051, 2177026350, 2456956037,
   2730485921, 2820302411, 3259730800, 3345764771,
   3516065817, 3600352804, 4094571909, 275423344,
   430227734, 506948616, 659060556, 883997877,
   958139571, 1322822218, 1537002063, 1747873779,
   1955562222, 2024104815, 2227730452, 2361852424,
   2428436474, 2756734187, 3204031479, 3329325298]

structure Sha256State where
  a : Nat
  b : Nat
  c : Nat
  d : Nat
  e : Nat
  f : Nat
  g : Nat
  h : Nat

def sha256Init : Sha256State :=
  ⟨1779033703, 3144134277, 1013904242, 2773480762,
   1359893119, 2600822924, 528734635, 1541459225⟩

/-- Reads the `i`-th big-endian 32-bit word of a 64-byte block. -/
def word32At (block : List Nat) (i : Nat) : Nat :=
  ((block.getD (4 * i) 0) <<< 24) ||| ((block.getD (4 * i + 1) 0) <<< 16) |||
    ((block.getD (4 * i + 2) 0) <<< 8) ||| (block.getD (4 * i + 3) 0)

def extendSchedule (w : List Nat) : List Nat :=
  let t := w.length
  w ++ [(w.getD (t - 16) 0 + smallSigma0 (w.getD (t - 15) 0) + w.getD (t - 7) 0 +
    smallSigma1 (w.getD (t - 2) 0)) % 4294967296]

def messageSchedule (block : List Nat) : List Nat :=
  (List.range 48).foldl (fun w _ => extendSchedule w) ((List.range 16).map (word32At block))

def sha256Round (st : Sha256State) (kw w : Nat) : Sha256State :=
  let ch := (st.e &&& st.f) ^^^ ((st.e ^^^ 4294967295) &&& st.g)
  let maj := (st.a &&& st.b) ^^^ (st.a &&& st.c) ^^^ (st.b &&& st.c)
  let t1 := (st.h + bigSigma1 st.e + ch + kw + w) % 4294967296
  let t2 := (bigSigma0 st.a + maj) % 4294967296
  ⟨(t1 + t2) % 4294967296, st.a, st.b, st.c, (st.d + t1) % 4294967296, st.e, st.f, st.g⟩

def sha256Compress (st : Sha256State) (block : List Nat) : Sha256State :=
  let w := messageSchedule block
  let fin := (List.range 64).foldl
    (fun s i => sha256Round s (sha256K.getD i 0) (w.getD i 0)) st
  ⟨add32 st.a fin.a, add32 st.b fin.b, add32 st.c fin.c, add32 st.d fin.d,
   add32 st.e fin.e, add32 st.f fin.f, add32 st.g fin.g, add32 st.h fin.h⟩

/-- Appends the 0x80 marker, zero padding and the 64-bit big-endian bit length. -/
def sha256Pad (msg : List Nat) : List Nat :=
  msg ++ [128] ++ List.replicate ((119 - msg.length % 64) % 64) 0 ++
    toBytesBE 8 ((msg.length * 8) % 18446744073709551616)

def chunks64 (l : List Nat) : List (List Nat) :=
  if h : l = [] then []
  else l.take 64 :: chunks64 (l.drop 64)
termination_by l.length
decreasing_by
  simp only [List.length_drop]
  have := List.length_pos.mpr h
  omega

def sha256 (msg : List Nat) : List Nat :=
  let st := (chunks64 (sha256Pad msg)).foldl sha256Compress sha256Init
  toBytesBE 4 st.a ++ toBytesBE 4 st.b ++ toBytesBE 4 st.c ++ toBytesBE 4 st.d ++
    toBytesBE 4 st.e ++ toBytesBE 4 st.f ++ toBytesBE 4 st.g ++ toBytesBE 4 st.h

/-- HMAC-SHA256 (RFC 2104) with the SHA-256 block size of 64 bytes. -/
def hmacSha256 (key msg : List Nat) : List Nat :=
  let k0 := if 64 < key.length then sha256 key else key
  let kp := k0 ++ List.replicate (64 - k0.length) 0
  sha256 ((kp.map (fun b => b ^^^ 92)) ++ sha256 ((kp.map (fun b => b ^^^ 54)) ++ msg))

/-! Hex encoding (lowercase, as produced by the `hex` crate) and UTF-8. -/

def hexDigit (n : Nat) : Char :=
  if n < 10 then Char.ofNat (48 + n) else Char.ofNat (87 + n)

def hexEncode (l : List Nat) : String :=
  ⟨l.foldr (fun b acc => hexDigit (b / 16) :: hexDigit (b % 16) :: acc) []⟩

/-- UTF-8 encoding of one Unicode scalar value. -/
def utf8Bytes (c : Char) : List Nat :=
  let n := c.toNat
  if n < 128 then [n]
  else if n < 2048 then [192 ||| (n >>> 6), 128 ||| (n &&& 63)]
  else if n < 65536 then
    [224 ||| (n >>> 12), 128 ||| ((n >>> 6) &&& 63), 128 ||| (n &&& 63)]
  else
    [240 ||| (n >>> 18), 128 ||| ((n >>> 12) &&& 63), 128 ||| ((n >>> 6) &&& 63), 128 ||| (n &&& 63)]

/-- The UTF-8 bytes of a string, as consumed by `as_bytes()` in the Rust code. -/
def strBytes (s : String) : List Nat :=
  s.data.foldr (fun c acc => utf8Bytes c ++ acc) []

/-! Calendar conversion for `chrono`'s `format("%Y%m%d")` on a UTC timestamp.
`civilFromDays` is the standard proleptic-Gregorian days-to-civil-date
algorithm (Howard Hinnant's `civil_from_days`), which is what chrono computes. -/

def civilFromDays (z0 : Int) : Int × Int × Int :=
  let z := z0 + 719468
  let era := Int.fdiv z 146097
  let doe := z - era * 146097
  let yoe := Int.fdiv (doe - Int.fdiv doe 1460 + Int.fdiv doe 36524 - Int.fdiv doe 146096) 365
  let y := yoe + era * 400
  let doy := doe - (365 * yoe + Int.fdiv yoe 4 - Int.fdiv yoe 100)
  let mp := Int.fdiv (5 * doy + 2) 153
  let d := doy - Int.fdiv (153 * mp + 2) 5 + 1
  let m := if mp < 10 then mp + 3 else mp - 9
  (if m ≤ 2 then y + 1 else y, m, d)

/-- Decimal rendering of a `Nat`, zero-padded on the left to `width` digits. -/
def natPad (width n : Nat) : String :=
  let s := toString n
  ⟨List.replicate (width - s.length) '0'⟩ ++ s

def intPad4 (y : Int) : String :=
  if y < 0 then "-" ++ natPad 4 (Int.toNat (-y)) else natPad 4 (Int.toNat y)

/-- The `YYYYMMDD` UTC date string of an epoch-seconds timestamp, i.e.
`timestamp.format("%Y%m%d").to_string()` in the Rust code. -/
def formatYYYYMMDD (ts : Int) : String :=
  let c := civilFromDays (Int.fdiv ts 86400)
  intPad4 c.1 ++ natPad 2 (Int.toNat c.2.1) ++ natPad 2 (Int.toNat c.2.2)

/-! String helpers mirroring the Rust standard library functions used
by signature.rs. -/

/-- ASCII fragment of `str::to_lowercase`, applied character-wise. -/
def asciiLowerChar (c : Char) : Char :=
  if 65 ≤ c.toNat ∧ c.toNat ≤ 90 then Char.ofNat (c.toNat + 32) else c

def rustToLower (s : String) : String := ⟨s.data.map asciiLowerChar⟩

/-- The Unicode White_Space set trimmed by `str::trim`. -/
def rustIsWhitespace (c : Char) : Bool :=
  c.toNat = 9 || c.toNat = 10 || c.toNat = 11 || c.toNat = 12 || c.toNat = 13 ||
  c.toNat = 32 || c.toNat = 133 || c.toNat = 160 || c.toNat = 5760 ||
  (8192 ≤ c.toNat && c.toNat ≤ 8202) || c.toNat = 8232 || c.toNat = 8233 ||
  c.toNat = 8239 || c.toNat = 8287 || c.toNat = 12288

def rustTrim (s : String) : String :=
  ⟨((s.data.dropWhile rustIsWhitespace).reverse.dropWhile rustIsWhitespace).reverse⟩

/-- `str::split(sep)` on a character pattern: an empty input yields one empty
piece, and every separator occurrence starts a new piece. -/
def splitChar (sep : Char) : List Char → List (List Char)
  | [] => [[]]
  | c :: cs =>
    match splitChar sep cs with
    | [] => [[]]
    | p :: ps => if c = sep then [] :: p :: ps else (c :: p) :: ps

/-- `Vec::join(sep)`: pieces joined with a separator, empty for an empty vector. -/
def joinSep (sep : String) : List String → String
  | [] => ""
  | [s] => s
  | s :: rest => s ++ sep ++ joinSep sep rest

/-! The `url::form_urlencoded::byte_serialize` encoding. -/

/-- Bytes passed through unchanged by `byte_serialize`:
ASCII alphanumerics and `*`, `-`, `.`, `_`. -/
def urlSafeByte (b : Nat) : Bool :=
  (48 ≤ b && b ≤ 57) || (65 ≤ b && b ≤ 90) || (97 ≤ b && b ≤ 122) ||
  b = 42 || b = 45 || b = 46 || b = 95

def hexDigitUpper (n : Nat) : Char :=
  if n < 10 then Char.ofNat (48 + n) else Char.ofNat (55 + n)

def urlEncodeByte (b : Nat) : List Char :=
  if b = 32 then ['+']
  else if urlSafeByte b then [Char.ofNat b]
  else ['%', hexDigitUpper (b / 16), hexDigitUpper (b % 16)]

/-- `Signer::url_encode`: form-urlencoded serialization of the UTF-8 bytes. -/
def url_encode (s : String) : String :=
  ⟨(strBytes s).foldr (fun b acc => urlEncodeByte b ++ acc) []⟩

/-! The ordering used by Rust's `String: Ord` (byte-wise lexicographic over
UTF-8, which coincides with code-point-wise lexicographic comparison because
UTF-8 preserves code-point order), as an executable Boolean comparison. -/

def charListLeB : List Char → List Char → Bool
  | [], _ => true
  | _ :: _, [] => false
  | c :: cs, d :: ds =>
    if c.toNat < d.toNat then true
    else if d.toNat < c.toNat then false
    else charListLeB cs ds

def strLeB (a b : String) : Bool := charListLeB a.data b.data

/-- `a` compares less-or-equal to `b` under Rust's `String` ordering. -/
def strLe (a b : String) : Prop := strLeB a b = true

instance : DecidableRel strLe := fun a b =>
  inferInstanceAs (Decidable (strLeB a b = true))

theorem charListLeB_cons_iff {x y : Char} {xs ys : List Char} :
    charListLeB (x :: xs) (y :: ys) = true ↔
      x.toNat < y.toNat ∨ (x.toNat = y.toNat ∧ charListLeB xs ys = true) := by
  by_cases h1 : x.toNat < y.toNat
  · simp [charListLeB, h1]
  · by_cases h2 : y.toNat < x.toNat
    · simp only [charListLeB, if_neg h1, if_pos h2]
      constructor
      · intro h
        cases h
      · rintro (h | ⟨h, _⟩) <;> omega
    · simp only [charListLeB, if_neg h1, if_neg h2]
      constructor
      · intro h
        exact Or.inr ⟨by omega, h⟩
      · rintro (h | ⟨_, h⟩)
        · omega
        · exact h

theorem charListLeB_total : ∀ a b : List Char,
    charListLeB a b = true ∨ charListLeB b a = true
  | [], _ => Or.inl rfl
  | _ :: _, [] => Or.inr rfl
  | c :: cs, d :: ds => by
    rcases Nat.lt_trichotomy c.toNat d.toNat with h | h | h
    · exact Or.inl (charListLeB_cons_iff.mpr (Or.inl h))
    · rcases charListLeB_total cs ds with ih | ih
      · exact Or.inl (charListLeB_cons_iff.mpr (Or.inr ⟨h, ih⟩))
      · exact Or.inr (charListLeB_cons_iff.mpr (Or.inr ⟨h.symm, ih⟩))
    · exact Or.inr (charListLeB_cons_iff.mpr (Or.inl h))

theorem charListLeB_trans : ∀ a b c : List Char,
    charListLeB a b = true → charListLeB b c = true → charListLeB a c = true
  | [], _, _, _, _ => rfl
  | _ :: _, [], _, h1, _ => by cases h1
  | _ :: _, _ :: _, [], _, h2 => by cases h2
  | x :: xs, y :: ys, z :: zs, h1, h2 => by
    rcases charListLeB_cons_iff.mp h1 with hlt | ⟨heq, hrec⟩ <;>
      rcases charListLeB_cons_iff.mp h2 with hlt' | ⟨heq', hrec'⟩
    · exact charListLeB_cons_iff.mpr (Or.inl (by omega))
    · exact charListLeB_cons_iff.mpr (Or.inl (by omega))
    · exact charListLeB_cons_iff.mpr (Or.inl (by omega))
    · exact charListLeB_cons_iff.mpr
        (Or.inr ⟨by omega, charListLeB_trans xs ys zs hrec hrec'⟩)

theorem charListLeB_antisymm : ∀ a b : List Char,
    charListLeB a b = true → charListLeB b a = true → a = b
  | [], [], _, _ => rfl
  | [], _ :: _, _, h2 => by cases h2
  | _ :: _, [], h1, _ => by cases h1
  | x :: xs, y :: ys, h1, h2 => by
    rcases charListLeB_cons_iff.mp h1 with hlt | ⟨heq, hrec⟩ <;>
      rcases charListLeB_cons_iff.mp h2 with hlt' | ⟨heq', hrec'⟩
    · omega
    · omega
    · omega
    · have hxy : x = y := by
        calc x = Char.ofNat x.toNat := (Char.ofNat_toNat x).symm
        _ = Char.ofNat y.toNat := by rw [heq]
        _ = y := Char.ofNat_toNat y
      rw [hxy, charListLeB_antisymm xs ys hrec hrec']

instance : IsTotal String strLe :=
  ⟨fun a b => charListLeB_total a.data b.data⟩

instance : IsTrans String strLe :=
  ⟨fun a b c h1 h2 => charListLeB_trans a.data b.data c.data h1 h2⟩

instance : IsAntisymm String strLe :=
  ⟨fun a b h1 h2 => by
    cases a
    cases b
    exact congrArg String.mk (charListLeB_antisymm _ _ h1 h2)⟩

/-! The error type (src/error.rs) restricted to the variants the signing core
can construct or that claims mention; the `Network`/`Json` variants wrap
foreign error types of the transport layer and are irrelevant here. -/

inductive TencentCloudError where
  | Api (code message : String) (request_id : Option String)
  | Auth (message : String)
  | Config (message : String)
  | Parameter (message : String)
  | Signature (message : String)
  | Timeout (message : String)
  | Other (message : String)
  deriving DecidableEq, Repr

instance : DecidableEq (Except TencentCloudError String) := fun a b =>
  match a, b with
  | .error x, .error y =>
    if h : x = y then .isTrue (by rw [h]) else .isFalse (by simp [h])
  | .error _, .ok _ => .isFalse (by simp)
  | .ok _, .error _ => .isFalse (by simp)
  | .ok x, .ok y =>
    if h : x = y then .isTrue (by rw [h]) else .isFalse (by simp [h])

instance : DecidableEq (Except TencentCloudError (String × String)) := fun a b =>
  match a, b with
  | .error x, .error y =>
    if h : x = y then .isTrue (by rw [h]) else .isFalse (by simp [h])
  | .error _, .ok _ => .isFalse (by simp)
  | .ok _, .error _ => .isFalse (by simp)
  | .ok x, .ok y =>
    if h : x = y then .isTrue (by rw [h]) else .isFalse (by simp [h])

/-! The HMAC context of the `hmac` crate.  `Hmac::<Sha256>::new_from_slice`
accepts keys of any length and therefore never returns the `Err` branch;
`update` buffers input and `finalize().into_bytes()` produces
HMAC-SHA256(key, buffered input). -/

structure HmacSha256Mac where
  key : List Nat
  buffered : List Nat

def hmacSha256NewFromSlice (key : List Nat) : Except String HmacSha256Mac :=
  .ok { key := key, buffered := [] }

def HmacSha256Mac.update (m : HmacSha256Mac) (data : List Nat) : HmacSha256Mac :=
  { m with buffered := m.buffered ++ data }

def HmacSha256Mac.finalizeBytes (m : HmacSha256Mac) : List Nat :=
  hmacSha256 m.key m.buffered

/-! The signer (src/core/signature.rs). -/

structure Signer where
  secret_id : String
  secret_key : String
  token : Option String

namespace Signer

def new (secret_id secret_key : String) (token : Option String) : Signer :=
  ⟨secret_id, secret_key, token⟩

/-- One raw query parameter: split on `=`; two pieces give a key-value pair,
one piece gives a key with an empty value, anything else is skipped. -/
def parseParam (p : List Char) : Option (String × String) :=
  match splitChar '=' p with
  | [k, v] => some (url_encode ⟨k⟩, url_encode ⟨v⟩)
  | [k] => some (url_encode ⟨k⟩, "")
  | _ => none

/-- The encoded parameter list of a raw query string, in input order. -/
def queryParams (query_string : String) : List (String × String) :=
  (splitChar '&' query_string.data).filterMap parseParam

/-- The comparison used by `params.sort_by(|a, b| a.0.cmp(&b.0))`: keys only. -/
def paramKeyLe (a b : String × String) : Prop := strLe a.1 b.1

instance : DecidableRel paramKeyLe := fun a b =>
  inferInstanceAs (Decidable (strLe a.1 b.1))

/-- `sort_by` on a Rust vector is a stable sort, i.e. `List.insertionSort`. -/
def sortedQueryParams (query_string : String) : List (String × String) :=
  List.insertionSort paramKeyLe (queryParams query_string)

def renderParam (kv : String × String) : String :=
  if kv.2 = "" then kv.1 else kv.1 ++ "=" ++ kv.2

def canonicalQueryString (query_string : String) : String :=
  joinSep "&" ((sortedQueryParams query_string).map renderParam)

def create_canonical_query_string (_self : Signer) (query_string : String) :
    Except TencentCloudError String :=
  if query_string = "" then .ok ""
  else .ok (canonicalQueryString query_string)

/-- One rendered header line: `{lowercased-name}:{trimmed-value}`. -/
def headerLine (kv : String × String) : String :=
  rustToLower kv.1 ++ ":" ++ rustTrim kv.2

/-- `canonical_headers.sort()`: the rendered lines, sorted as whole strings. -/
def canonicalHeaderLines (headers : List (String × String)) : List String :=
  List.insertionSort strLe (headers.map headerLine)

/-- `header_names.sort()`: the lowercased names, sorted. -/
def signedHeaderNames (headers : List (String × String)) : List String :=
  List.insertionSort strLe (headers.map (fun kv => rustToLower kv.1))

def canonicalHeadersString (headers : List (String × String)) : String :=
  joinSep "\n" (canonicalHeaderLines headers) ++ "\n"

def signedHeadersString (headers : List (String × String)) : String :=
  joinSep ";" (signedHeaderNames headers)

def create_canonical_headers (_self : Signer) (headers : List (String × String)) :
    Except TencentCloudError (String × String) :=
  .ok (canonicalHeadersString headers, signedHeadersString headers)

def hash_payload (_self : Signer) (payload : String) : String :=
  hexEncode (sha256 (strBytes payload))

def create_canonical_request (self : Signer) (http_method uri query_string : String)
    (headers : List (String × String)) (payload : String) :
    Except TencentCloudError String := do
  let canonical_uri := if uri = "" then "/" else uri
  let canonical_query_string ← self.create_canonical_query_string query_string
  let ch ← self.create_canonical_headers headers
  let hashed_payload := self.hash_payload payload
  .ok (http_method ++ "\n" ++ canonical_uri ++ "\n" ++ canonical_query_string ++ "\n" ++
    ch.1 ++ "\n" ++ ch.2 ++ "\n" ++ hashed_payload)

def create_string_to_sign (_self : Signer) (canonical_request service _region : String)
    (timestamp : Int) : Except TencentCloudError String :=
  let algorithm := "TC3-HMAC-SHA256"
  let date := formatYYYYMMDD timestamp
  let credential_scope := date ++ "/" ++ service ++ "/tc3_request"
  let hashed_canonical_request := hexEncode (sha256 (strBytes canonical_request))
  .ok (algorithm ++ "\n" ++ toString timestamp ++ "\n" ++ credential_scope ++ "\n" ++
    hashed_canonical_request)

def calculate_signature (self : Signer) (string_to_sign service _region : String)
    (timestamp : Int) : Except TencentCloudError String := do
  let date := formatYYYYMMDD timestamp
  let mac ← (hmacSha256NewFromSlice (strBytes ("TC3" ++ self.secret_key))).mapError
    (fun e => TencentCloudError.Signature ("Failed to create HMAC: " ++ e))
  let mac := mac.update (strBytes date)
  let k_date := mac.finalizeBytes
  let mac ← (hmacSha256NewFromSlice k_date).mapError
    (fun e => TencentCloudError.Signature ("Failed to create HMAC: " ++ e))
  let mac := mac.update (strBytes service)
  let k_service := mac.finalizeBytes
  let mac ← (hmacSha256NewFromSlice k_service).mapError
    (fun e => TencentCloudError.Signature ("Failed to create HMAC: " ++ e))
  let mac := mac.update (strBytes "tc3_request")
  let k_signing := mac.finalizeBytes
  let mac ← (hmacSha256NewFromSlice k_signing).mapError
    (fun e => TencentCloudError.Signature ("Failed to create HMAC: " ++ e))
  let mac := mac.update (strBytes string_to_sign)
  let signature := mac.finalizeBytes
  .ok (hexEncode signature)

def sign_request (self : Signer) (http_method uri query_string : String)
    (headers : List (String × String)) (payload service region : String)
    (timestamp : Int) : Except TencentCloudError String := do
  let canonical_request ← self.create_canonical_request http_method uri query_string
    headers payload
  let string_to_sign ← self.create_string_to_sign canonical_request service region timestamp
  let signature ← self.calculate_signature string_to_sign service region timestamp
  .ok signature

def create_authorization_header (self : Signer) (signature service _region : String)
    (timestamp : Int) (signed_headers : String) : String :=
  let date := formatYYYYMMDD timestamp
  let credential_scope := date ++ "/" ++ service ++ "/tc3_request"
  let credential := self.secret_id ++ "/" ++ credential_scope
  "TC3-HMAC-SHA256 Credential=" ++ credential ++ ", SignedHeaders=" ++ signed_headers ++
    ", Signature=" ++ signature

def get_signed_headers (headers : List (String × String)) : String :=
  joinSep ";" (List.insertionSort strLe (headers.map (fun kv => rustToLower kv.1)))

end Signer

/-! Pure characterizations used in the theorem statements. -/

/-- The four-stage HMAC-SHA256 key-derivation chain described by the spec:
keyed first by `"TC3" + secret` consuming the date, then by each prior
output consuming the service, the literal `"tc3_request"`, and finally
the string-to-sign. -/
def tc3SignatureChain (secret_key date service string_to_sign : String) : List Nat :=
  hmacSha256
    (hmacSha256
      (hmacSha256
        (hmacSha256 (strBytes ("TC3" ++ secret_key)) (strBytes date))
        (strBytes service))
      (strBytes "tc3_request"))
    (strBytes string_to_sign)

/-- The value `create_canonical_query_string` wraps in `Ok`. -/
def canonicalQueryOutput (query_string : String) : String :=
  if query_string = "" then "" else Signer.canonicalQueryString query_string

/-- The six-field canonical request string. -/
def canonicalRequestString (http_method uri query_string : String)
    (headers : List (String × String)) (payload : String) : String :=
  http_method ++ "\n" ++ (if uri = "" then "/" else uri) ++ "\n" ++
    canonicalQueryOutput query_string ++ "\n" ++ Signer.canonicalHeadersString headers ++
    "\n" ++ Signer.signedHeadersString headers ++ "\n" ++ hexEncode (sha256 (strBytes payload))

/-- The four-line string-to-sign. -/
def stringToSignString (canonical_request service : String) (timestamp : Int) : String :=
  "TC3-HMAC-SHA256" ++ "\n" ++ toString timestamp ++ "\n" ++
    (formatYYYYMMDD timestamp ++ "/" ++ service ++ "/tc3_request") ++ "\n" ++
    hexEncode (sha256 (strBytes canonical_request))

/-! Helper equations relating the fallible operations to their pure outputs. -/

theorem create_canonical_query_string_eq (self : Signer) (q : String) :
    self.create_canonical_query_string q = Except.ok (canonicalQueryOutput q) := by
  by_cases h : q = "" <;>
    simp [Signer.create_canonical_query_string, canonicalQueryOutput, h]

theorem create_canonical_request_eq (self : Signer) (m uri q : String)
    (hs : List (String × String)) (p : String) :
    self.create_canonical_request m uri q hs p =
      Except.ok (canonicalRequestString m uri q hs p) := by
  unfold Signer.create_canonical_request
  rw [create_canonical_query_string_eq]
  rfl

theorem create_string_to_sign_eq (self : Signer) (cr service region : String) (ts : Int) :
    self.create_string_to_sign cr service region ts =
      Except.ok (stringToSignString cr service ts) := rfl

theorem calculate_signature_eq (self : Signer) (sts service region : String) (ts : Int) :
    self.calculate_signature sts service region ts =
      Except.ok (hexEncode (tc3SignatureChain self.secret_key (formatYYYYMMDD ts)
        service sts)) := rfl

theorem sign_request_eq (self : Signer) (m uri q : String) (hs : List (String × String))
    (p service region : String) (ts : Int) :
    self.sign_request m uri q hs p service region ts =
      Except.ok (hexEncode (tc3SignatureChain self.secret_key (formatYYYYMMDD ts) service
        (stringToSignString (canonicalRequestString m uri q hs p) service ts))) := by
  unfold Signer.sign_request
  rw [create_canonical_request_eq]
  rfl

/-- C1: for every secret key, service, timestamp and string-to-sign, the
signature returned by `calculate_signature` (and hence by `sign_request`)
is the lowercase hex encoding of the final output of exactly four successive
HMAC-SHA256 operations: keyed by `"TC3" + secret` consuming the UTC date
`YYYYMMDD` of the timestamp, then by each prior output consuming the service
name, the literal `"tc3_request"`, and the string-to-sign. -/
theorem calculate_signature_is_four_hmac_chain (self : Signer)
    (string_to_sign service region : String) (ts : Int) :
    self.calculate_signature string_to_sign service region ts =
      Except.ok (hexEncode (tc3SignatureChain self.secret_key (formatYYYYMMDD ts)
        service string_to_sign))
  ∧ ∀ (m uri q : String) (hs : List (String × String)) (p : String),
      self.sign_request m uri q hs p service region ts =
        Except.ok (hexEncode (tc3SignatureChain self.secret_key (formatYYYYMMDD ts) service
          (stringToSignString (canonicalRequestString m uri q hs p) service ts))) :=
  ⟨calculate_signature_eq self string_to_sign service region ts,
   fun m uri q hs p => sign_request_eq self m uri q hs p service region ts⟩

/-- C2: `create_canonical_request` returns exactly the six fields joined by
single newlines in the fixed order: the method unchanged, the canonical URI
(`"/"` exactly when the supplied URI is empty, the URI unchanged otherwise),
the canonical query string, the canonical headers block, the signed-headers
string, and the lowercase hex SHA-256 digest of the payload bytes; no field
is omitted even when empty. -/
theorem create_canonical_request_six_fields (self : Signer) (m uri q : String)
    (hs : List (String × String)) (p : String) :
    self.create_canonical_request m uri q hs p =
      Except.ok (m ++ "\n" ++ (if uri = "" then "/" else uri) ++ "\n" ++
        canonicalQueryOutput q ++ "\n" ++ Signer.canonicalHeadersString hs ++ "\n" ++
        Signer.signedHeadersString hs ++ "\n" ++ hexEncode (sha256 (strBytes p))) :=
  create_canonical_request_eq self m uri q hs p

/-- C5: `create_string_to_sign` returns exactly the four lines
`TC3-HMAC-SHA256`, the timestamp as epoch seconds, the credential scope
`{date:YYYYMMDD}/{service}/tc3_request` derived from the same timestamp's UTC
date, and the lowercase hex SHA-256 of the canonical request, joined by
single newlines in that order. -/
theorem create_string_to_sign_four_lines (self : Signer)
    (canonical_request service region : String) (ts : Int) :
    self.create_string_to_sign canonical_request service region ts =
      Except.ok ("TC3-HMAC-SHA256" ++ "\n" ++ toString ts ++ "\n" ++
        (formatYYYYMMDD ts ++ "/" ++ service ++ "/tc3_request") ++ "\n" ++
        hexEncode (sha256 (strBytes canonical_request))) := rfl

/-- C6: `create_authorization_header` returns exactly
`TC3-HMAC-SHA256 Credential={id}/{date}/{service}/tc3_request,
SignedHeaders={signed_headers}, Signature={signature}` with the literal
comma-space between fields, where `{id}` is the signer's secret id and
`{date}` the timestamp's UTC date as `YYYYMMDD`; in particular the spec's
concrete example holds verbatim. -/
theorem create_authorization_header_format (self : Signer)
    (signature service region signed_headers : String) (ts : Int) :
    self.create_authorization_header signature service region ts signed_headers =
      "TC3-HMAC-SHA256 Credential=" ++
        (self.secret_id ++ "/" ++ (formatYYYYMMDD ts ++ "/" ++ service ++ "/tc3_request")) ++
        ", SignedHeaders=" ++ signed_headers ++ ", Signature=" ++ signature
  ∧ (Signer.new "test_id" "test_key" Option.none).create_authorization_header
      "abc123" "sms" "ap-guangzhou" 1609459200 "content-type;host" =
      "TC3-HMAC-SHA256 Credential=test_id/20210101/sms/tc3_request, SignedHeaders=content-type;host, Signature=abc123" :=
  ⟨rfl, by decide⟩

/-- C9: the canonicalization and formatting operations are total, returning
`Ok` on every well-typed input, and signature computation never takes its
error branch because `Hmac::<Sha256>::new_from_slice` accepts keys of any
length, so `calculate_signature` and `sign_request` also always return `Ok`. -/
theorem canonicalization_total_signature_never_errors :
    (∀ (self : Signer) (q : String),
      ∃ s, self.create_canonical_query_string q = Except.ok s)
  ∧ (∀ (self : Signer) (hs : List (String × String)),
      ∃ pr, self.create_canonical_headers hs = Except.ok pr)
  ∧ (∀ (self : Signer) (m uri q : String) (hs : List (String × String)) (p : String),
      ∃ s, self.create_canonical_request m uri q hs p = Except.ok s)
  ∧ (∀ (self : Signer) (cr service region : String) (ts : Int),
      ∃ s, self.create_string_to_sign cr service region ts = Except.ok s)
  ∧ (∀ (self : Signer) (sts service region : String) (ts : Int),
      ∃ s, self.calculate_signature sts service region ts = Except.ok s)
  ∧ (∀ (self : Signer) (m uri q : String) (hs : List (String × String))
        (p service region : String) (ts : Int),
      ∃ s, self.sign_request m uri q hs p service region ts = Except.ok s) :=
  ⟨fun self q => ⟨_, create_canonical_query_string_eq self q⟩,
   fun _ hs => ⟨_, rfl⟩,
   fun self m uri q hs p => ⟨_, create_canonical_request_eq self m uri q hs p⟩,
   fun _ _ _ _ _ => ⟨_, rfl⟩,
   fun _ _ _ _ _ => ⟨_, rfl⟩,
   fun self m uri q hs p service region ts =>
     ⟨_, sign_request_eq self m uri q hs p service region ts⟩⟩

/-- C10: the region argument has no effect on any output: `sign_request`,
`create_string_to_sign`, `calculate_signature` and
`create_authorization_header` return identical results for any two region
strings, all other inputs equal. -/
theorem region_has_no_effect (self : Signer) (m uri q : String)
    (hs : List (String × String)) (p service r1 r2 sig sh cr : String) (ts : Int) :
    self.sign_request m uri q hs p service r1 ts =
      self.sign_request m uri q hs p service r2 ts
  ∧ self.create_string_to_sign cr service r1 ts =
      self.create_string_to_sign cr service r2 ts
  ∧ self.calculate_signature cr service r1 ts =
      self.calculate_signature cr service r2 ts
  ∧ self.create_authorization_header sig service r1 ts sh =
      self.create_authorization_header sig service r2 ts sh :=
  ⟨rfl, rfl, rfl, rfl⟩


/-! Permutation invariance of the sorted constructions. -/

theorem insertionSortStrings_perm_congr {l1 l2 : List String} (h : l1.Perm l2) :
    List.insertionSort strLe l1 = List.insertionSort strLe l2 :=
  List.eq_of_perm_of_sorted
    ((List.perm_insertionSort _ l1).trans (h.trans (List.perm_insertionSort _ l2).symm))
    (List.sorted_insertionSort _ l1) (List.sorted_insertionSort _ l2)

theorem canonicalHeaderLines_perm_congr {hs1 hs2 : List (String × String)}
    (h : hs1.Perm hs2) :
    Signer.canonicalHeaderLines hs1 = Signer.canonicalHeaderLines hs2 :=
  insertionSortStrings_perm_congr (h.map Signer.headerLine)

theorem signedHeaderNames_perm_congr {hs1 hs2 : List (String × String)}
    (h : hs1.Perm hs2) :
    Signer.signedHeaderNames hs1 = Signer.signedHeaderNames hs2 :=
  insertionSortStrings_perm_congr (h.map fun kv => rustToLower kv.1)

/-- C8: `sign_request` is deterministic and independent of the order in which
the header map enumerates its entries: permuting the header association list
leaves the signature byte-identical. -/
theorem sign_request_header_order_independent (self : Signer) (m uri q : String)
    (hs1 hs2 : List (String × String)) (p service region : String) (ts : Int)
    (hperm : hs1.Perm hs2) :
    self.sign_request m uri q hs1 p service region ts =
      self.sign_request m uri q hs2 p service region ts := by
  rw [sign_request_eq, sign_request_eq]
  unfold canonicalRequestString Signer.canonicalHeadersString Signer.signedHeadersString
  rw [canonicalHeaderLines_perm_congr hperm, signedHeaderNames_perm_congr hperm]

/-- Witness for C8 at two concrete header orders. -/
theorem sign_request_header_order_independent_witness :
    (Signer.new "id" "key" Option.none).sign_request "POST" "/" ""
      [("Host", "h"), ("Content-Type", "c")] "" "sms" "ap-guangzhou" 0 =
    (Signer.new "id" "key" Option.none).sign_request "POST" "/" ""
      [("Content-Type", "c"), ("Host", "h")] "" "sms" "ap-guangzhou" 0 :=
  sign_request_header_order_independent (Signer.new "id" "key" Option.none) "POST" "/" ""
    [("Host", "h"), ("Content-Type", "c")] [("Content-Type", "c"), ("Host", "h")]
    "" "sms" "ap-guangzhou" 0 (List.Perm.swap ("Content-Type", "c") ("Host", "h") [])

/-! Claim C3: the query canonicalization sorts by encoded key but keeps
parameters with equal keys in input order (the Rust sort is stable and
compares keys only), and a parameter containing two or more `=` is dropped. -/

instance : IsTotal (String × String) Signer.paramKeyLe :=
  ⟨fun a b => charListLeB_total a.1.data b.1.data⟩

instance : IsTrans (String × String) Signer.paramKeyLe :=
  ⟨fun a b c h1 h2 => charListLeB_trans a.1.data b.1.data c.1.data h1 h2⟩

theorem paramKeyLe_of_eq {a b : String × String} (h : a.1 = b.1) :
    Signer.paramKeyLe a b := by
  show strLeB a.1 b.1 = true
  rcases charListLeB_total a.1.data b.1.data with h' | h'
  · exact h'
  · rw [h] at h' ⊢
    exact h'

/-- C3 counterexample: on `"a=2&a=1"` the code returns `"a=2&a=1"` (ties are
not broken by encoded value, which would give `"a=1&a=2"`), and the parameter
`a=b=c` of `"x=1&a=b=c"` is dropped rather than kept. -/
theorem query_ties_input_order_counterexample :
    (Signer.new "i" "k" Option.none).create_canonical_query_string "a=2&a=1" =
      Except.ok "a=2&a=1"
  ∧ (Signer.new "i" "k" Option.none).create_canonical_query_string "x=1&a=b=c" =
      Except.ok "x=1"
  ∧ ("a=2&a=1" : String) ≠ "a=1&a=2" :=
  ⟨by decide, by decide, by decide⟩

/-- C3 (amended): `create_canonical_query_string` percent-encodes each key
and value per `application/x-www-form-urlencoded` rules, sorts the parameters
lexicographically by encoded key with a stable sort so that parameters with
equal encoded keys keep their input order (ties are not broken by encoded
value), keeps every parameter that splits on `=` into at most two pieces
(a parameter containing two or more `=` is dropped), renders a parameter
with no `=` as just its encoded key with no trailing `=`, and returns the
empty string for empty input rather than an error. -/
theorem create_canonical_query_string_sorted_stable (self : Signer) (q : String) :
    self.create_canonical_query_string q =
      Except.ok (if q = "" then ""
        else joinSep "&" ((Signer.sortedQueryParams q).map Signer.renderParam))
  ∧ (Signer.sortedQueryParams q).Perm (Signer.queryParams q)
  ∧ List.Sorted Signer.paramKeyLe (Signer.sortedQueryParams q)
  ∧ (∀ a b : String × String, List.Sublist [a, b] (Signer.queryParams q) → a.1 = b.1 →
      List.Sublist [a, b] (Signer.sortedQueryParams q))
  ∧ (∀ k : String, Signer.renderParam (k, "") = k)
  ∧ self.create_canonical_query_string "" = Except.ok "" :=
  ⟨create_canonical_query_string_eq self q,
   List.perm_insertionSort _ _,
   List.sorted_insertionSort _ _,
   fun a b hsub heq =>
     List.pair_sublist_insertionSort (paramKeyLe_of_eq heq) hsub,
   fun _ => rfl,
   rfl⟩

/-- Witness for C3's stability conjunct at a concrete tied input. -/
theorem query_stability_witness :
    (List.Sublist [(("a" : String), ("2" : String)), ("a", "1")]
        (Signer.queryParams "a=2&a=1")
      ∧ ("a" : String) = "a")
  ∧ List.Sublist [(("a" : String), ("2" : String)), ("a", "1")]
      (Signer.sortedQueryParams "a=2&a=1") :=
  ⟨⟨by decide, rfl⟩,
   (create_canonical_query_string_sorted_stable (Signer.new "i" "k" Option.none)
     "a=2&a=1").2.2.2.1 ("a", "2") ("a", "1") (by decide) rfl⟩

/-! Claim C4: the canonical headers block is sorted by whole rendered line,
not by lowercased name alone; the two orders differ when one name is a
proper prefix of another. -/

/-- C4 counterexample: with headers `x: v` and `x-y: w` the code emits the
block `"x-y:w\nx:v\n"` (the rendered lines are sorted as whole strings and
`'-' < ':'`), not the name-sorted block `"x:v\nx-y:w\n"`, while the
signed-headers string `"x;x-y"` is sorted by name. -/
theorem header_block_line_sort_counterexample :
    (Signer.new "i" "k" Option.none).create_canonical_headers [("x", "v"), ("x-y", "w")] =
      Except.ok ("x-y:w\nx:v\n", "x;x-y")
  ∧ ("x-y:w\nx:v\n" : String) ≠ "x:v\nx-y:w\n" :=
  ⟨by decide, by decide⟩

/-- C4 (amended): `create_canonical_headers` returns (a) the block of
rendered lines `{lowercased-name}:{trimmed-value}`, one per line, sorted
lexicographically as whole line strings (which can deviate from sorting by
lowercased name alone when one name is a proper prefix of another), ending
with a trailing newline, and (b) the semicolon-joined lexicographically
sorted list of lowercased header names; the claim's concrete
Content-Type/Host example holds in both insertion orders. -/
theorem create_canonical_headers_sorted (self : Signer) (hs : List (String × String)) :
    self.create_canonical_headers hs =
      Except.ok (joinSep "\n" (Signer.canonicalHeaderLines hs) ++ "\n",
        joinSep ";" (Signer.signedHeaderNames hs))
  ∧ (Signer.canonicalHeaderLines hs).Perm (hs.map Signer.headerLine)
  ∧ List.Sorted strLe (Signer.canonicalHeaderLines hs)
  ∧ (Signer.signedHeaderNames hs).Perm (hs.map fun kv => rustToLower kv.1)
  ∧ List.Sorted strLe (Signer.signedHeaderNames hs)
  ∧ (Signer.new "i" "k" Option.none).create_canonical_headers
      [("Content-Type", "application/json"), ("Host", "sms.example.com")] =
      Except.ok ("content-type:application/json\nhost:sms.example.com\n",
        "content-type;host")
  ∧ (Signer.new "i" "k" Option.none).create_canonical_headers
      [("Host", "sms.example.com"), ("Content-Type", "application/json")] =
      Except.ok ("content-type:application/json\nhost:sms.example.com\n",
        "content-type;host") :=
  ⟨rfl,
   List.perm_insertionSort _ _,
   List.sorted_insertionSort _ _,
   List.perm_insertionSort _ _,
   List.sorted_insertionSort _ _,
   by decide,
   by decide⟩

/-! Claim C7: query canonicalization is not idempotent in general, because
re-encoding escapes the `%` and `+` characters produced by the first pass;
it is idempotent on query strings whose keys and values consist of
characters the encoding leaves unchanged. -/

/-- C7 counterexample: `"a=@"` canonicalizes to `"a=%40"`, but canonicalizing
`"a=%40"` yields `"a=%2540"`, not `"a=%40"`. -/
theorem query_canonicalization_not_idempotent :
    (Signer.new "i" "k" Option.none).create_canonical_query_string "a=@" =
      Except.ok "a=%40"
  ∧ (Signer.new "i" "k" Option.none).create_canonical_query_string "a=%40" =
      Except.ok "a=%2540"
  ∧ ("a=%2540" : String) ≠ "a=%40" :=
  ⟨by decide, by decide, by decide⟩

/-- A character that survives canonicalization unchanged: either left alone
by the form-urlencoded encoding, or one of the separators `&`, `=`. -/
def safeQueryChar (c : Char) : Bool := urlSafeByte c.toNat || c = '&' || c = '='

theorem urlSafeByte_lt_128 {b : Nat} (h : urlSafeByte b = true) : b < 128 := by
  simp only [urlSafeByte, Bool.or_eq_true, Bool.and_eq_true, decide_eq_true_eq] at h
  omega

theorem urlEncodeByte_safe {b : Nat} (h : urlSafeByte b = true) :
    urlEncodeByte b = [Char.ofNat b] := by
  have h32 : ¬ b = 32 := by
    intro hb
    rw [hb] at h
    exact absurd h (by decide)
  unfold urlEncodeByte
  rw [if_neg h32, if_pos h]

theorem utf8Bytes_safe {c : Char} (h : urlSafeByte c.toNat = true) :
    utf8Bytes c = [c.toNat] := by
  have hlt : c.toNat < 128 := urlSafeByte_lt_128 h
  simp [utf8Bytes, hlt]

theorem encode_chars_safe : ∀ cs : List Char,
    (∀ c ∈ cs, urlSafeByte c.toNat = true) →
    (strBytes ⟨cs⟩).foldr (fun b acc => urlEncodeByte b ++ acc) [] = cs := by
  intro cs
  induction cs with
  | nil => intro _; rfl
  | cons c cs ih =>
    intro h
    have hc : urlSafeByte c.toNat = true := h c (by simp)
    have hrec := ih fun d hd => h d (by simp [hd])
    have hsplit : strBytes ⟨c :: cs⟩ = utf8Bytes c ++ strBytes ⟨cs⟩ := rfl
    rw [hsplit, List.foldr_append, utf8Bytes_safe hc]
    simp only [List.foldr_cons, List.foldr_nil]
    rw [urlEncodeByte_safe hc, Char.ofNat_toNat, hrec]
    rfl

theorem url_encode_safe {s : String}
    (h : ∀ c ∈ s.data, urlSafeByte c.toNat = true) : url_encode s = s := by
  cases s with
  | mk cs => exact congrArg String.mk (encode_chars_safe cs h)

theorem splitChar_ne_nil (sep : Char) : ∀ xs : List Char, splitChar sep xs ≠ []
  | [] => by simp [splitChar]
  | c :: cs => by
    have hne := splitChar_ne_nil sep cs
    cases hsp : splitChar sep cs with
    | nil => exact absurd hsp hne
    | cons p ps =>
      unfold splitChar
      rw [hsp]
      by_cases hc : c = sep <;> simp [hc]

theorem splitChar_of_not_mem (sep : Char) :
    ∀ (xs : List Char), sep ∉ xs → splitChar sep xs = [xs]
  | [], _ => rfl
  | c :: cs, h => by
    have hc : ¬ c = sep := by
      intro hh
      exact h (by simp [hh])
    have hcs : sep ∉ cs := by
      intro hh
      exact h (by simp [hh])
    unfold splitChar
    rw [splitChar_of_not_mem sep cs hcs]
    simp [hc]

theorem splitChar_append (sep : Char) : ∀ (xs ys : List Char), sep ∉ xs →
    splitChar sep (xs ++ sep :: ys) = xs :: splitChar sep ys
  | [], ys, _ => by
    cases hsp : splitChar sep ys with
    | nil => exact absurd hsp (splitChar_ne_nil sep ys)
    | cons p ps =>
      have hstep : splitChar sep (sep :: ys) =
          match splitChar sep ys with
          | [] => [[]]
          | q :: qs => if sep = sep then [] :: q :: qs else (sep :: q) :: qs := rfl
      show splitChar sep (sep :: ys) = [] :: p :: ps
      rw [hstep, hsp]
      show (if sep = sep then [] :: p :: ps else (sep :: p) :: ps) = [] :: p :: ps
      rw [if_pos rfl]
  | c :: cs, ys, h => by
    have hc : ¬ c = sep := by
      intro hh
      exact h (by simp [hh])
    have hcs : sep ∉ cs := by
      intro hh
      exact h (by simp [hh])
    have ih := splitChar_append sep cs ys hcs
    have hstep : splitChar sep (c :: (cs ++ sep :: ys)) =
        match splitChar sep (cs ++ sep :: ys) with
        | [] => [[]]
        | q :: qs => if c = sep then [] :: q :: qs else (c :: q) :: qs := rfl
    show splitChar sep (c :: (cs ++ sep :: ys)) = (c :: cs) :: splitChar sep ys
    rw [hstep, ih]
    show (if c = sep then [] :: cs :: splitChar sep ys else (c :: cs) :: splitChar sep ys) =
      (c :: cs) :: splitChar sep ys
    rw [if_neg hc]

theorem mem_splitChar (sep : Char) : ∀ (xs p : List Char), p ∈ splitChar sep xs →
    ∀ c ∈ p, c ∈ xs ∧ ¬ c = sep
  | [], p, hp => by
    simp [splitChar] at hp
    subst hp
    intro c hc
    exact absurd hc (List.not_mem_nil c)
  | x :: xs, p, hp => by
    intro c hc
    cases hsp : splitChar sep xs with
    | nil => exact absurd hsp (splitChar_ne_nil sep xs)
    | cons p0 ps =>
      rw [splitChar, hsp] at hp
      replace hp : p ∈ (if x = sep then [] :: p0 :: ps else (x :: p0) :: ps) := hp
      by_cases hx : x = sep
      · rw [if_pos hx] at hp
        rcases List.mem_cons.mp hp with hpe | hpm
        · subst hpe
          exact absurd hc (List.not_mem_nil c)
        · have hrec := mem_splitChar sep xs p (by rw [hsp]; exact hpm) c hc
          exact ⟨List.mem_cons_of_mem x hrec.1, hrec.2⟩
      · rw [if_neg hx] at hp
        rcases List.mem_cons.mp hp with hpe | hpm
        · subst hpe
          rcases List.mem_cons.mp hc with hce | hcm
          · subst hce
            exact ⟨List.mem_cons_self c xs, hx⟩
          · have hrec := mem_splitChar sep xs p0
              (by rw [hsp]; exact List.mem_cons_self p0 ps) c hcm
            exact ⟨List.mem_cons_of_mem x hrec.1, hrec.2⟩
        · have hrec := mem_splitChar sep xs p
            (by rw [hsp]; exact List.mem_cons_of_mem p0 hpm) c hc
          exact ⟨List.mem_cons_of_mem x hrec.1, hrec.2⟩

theorem renderParam_data (k v : String) (hv : ¬ v = "") :
    (Signer.renderParam (k, v)).data = k.data ++ '=' :: v.data := by
  unfold Signer.renderParam
  rw [if_neg hv]
  show ((k ++ "=") ++ v).data = k.data ++ '=' :: v.data
  rw [String.data_append, String.data_append]
  simp

theorem renderParam_no_amp {kv : String × String}
    (hk : ∀ c ∈ kv.1.data, urlSafeByte c.toNat = true)
    (hv : ∀ c ∈ kv.2.data, urlSafeByte c.toNat = true) :
    '&' ∉ (Signer.renderParam kv).data := by
  obtain ⟨k, v⟩ := kv
  intro hmem
  by_cases hve : v = ""
  · subst hve
    unfold Signer.renderParam at hmem
    rw [if_pos rfl] at hmem
    exact absurd (hk '&' hmem) (by decide)
  · rw [renderParam_data k v hve] at hmem
    rcases List.mem_append.mp hmem with h | h
    · exact absurd (hk '&' h) (by decide)
    · rcases List.mem_cons.mp h with h | h
      · exact absurd h (by decide)
      · exact absurd (hv '&' h) (by decide)

theorem parseParam_render {kv : String × String}
    (hk : ∀ c ∈ kv.1.data, urlSafeByte c.toNat = true)
    (hv : ∀ c ∈ kv.2.data, urlSafeByte c.toNat = true) :
    Signer.parseParam (Signer.renderParam kv).data = some kv := by
  obtain ⟨k, v⟩ := kv
  have hkeq : '=' ∉ k.data := fun h => absurd (hk '=' h) (by decide)
  have hke : url_encode ⟨k.data⟩ = k := by
    cases k with
    | mk cs => exact url_encode_safe hk
  by_cases hve : v = ""
  · subst hve
    unfold Signer.renderParam
    rw [if_pos rfl]
    unfold Signer.parseParam
    rw [splitChar_of_not_mem '=' k.data hkeq]
    show some (url_encode ⟨k.data⟩, "") = some (k, "")
    rw [hke]
  · have hveq : '=' ∉ v.data := fun h => absurd (hv '=' h) (by decide)
    have hvee : url_encode ⟨v.data⟩ = v := by
      cases v with
      | mk cs => exact url_encode_safe hv
    unfold Signer.parseParam
    rw [renderParam_data k v hve, splitChar_append '=' k.data v.data hkeq,
      splitChar_of_not_mem '=' v.data hveq]
    show some (url_encode ⟨k.data⟩, url_encode ⟨v.data⟩) = some (k, v)
    rw [hke, hvee]

theorem joinSep_cons_ne (sep s : String) {r : List String} (h : r ≠ []) :
    joinSep sep (s :: r) = s ++ sep ++ joinSep sep r := by
  cases r with
  | nil => exact absurd rfl h
  | cons a as => rfl

theorem queryParams_render : ∀ (l : List (String × String)), l ≠ [] →
    (∀ kv ∈ l, (∀ c ∈ kv.1.data, urlSafeByte c.toNat = true) ∧
      (∀ c ∈ kv.2.data, urlSafeByte c.toNat = true)) →
    Signer.queryParams (joinSep "&" (l.map Signer.renderParam)) = l
  | [], h, _ => absurd rfl h
  | [kv], _, hsafe => by
    have hk := (hsafe kv (by simp)).1
    have hv := (hsafe kv (by simp)).2
    show Signer.queryParams (Signer.renderParam kv) = [kv]
    unfold Signer.queryParams
    rw [splitChar_of_not_mem '&' _ (renderParam_no_amp hk hv)]
    simp [parseParam_render hk hv]
  | kv :: kv2 :: rest, _, hsafe => by
    have hk := (hsafe kv (by simp)).1
    have hv := (hsafe kv (by simp)).2
    have ih := queryParams_render (kv2 :: rest) (by simp)
      (fun x hx => hsafe x (by simp [hx]))
    have hjoin : joinSep "&" ((kv :: kv2 :: rest).map Signer.renderParam) =
        Signer.renderParam kv ++ "&" ++
          joinSep "&" ((kv2 :: rest).map Signer.renderParam) := rfl
    unfold Signer.queryParams
    rw [hjoin]
    rw [show (Signer.renderParam kv ++ "&" ++
          joinSep "&" ((kv2 :: rest).map Signer.renderParam)).data =
        (Signer.renderParam kv).data ++
          '&' :: (joinSep "&" ((kv2 :: rest).map Signer.renderParam)).data from by
      rw [String.data_append, String.data_append]
      simp]
    rw [splitChar_append '&' _ _ (renderParam_no_amp hk hv)]
    simp only [List.filterMap_cons, parseParam_render hk hv]
    unfold Signer.queryParams at ih
    rw [ih]

theorem queryParams_safe {q : String}
    (hq : ∀ c ∈ q.data, safeQueryChar c = true) :
    ∀ kv ∈ Signer.queryParams q,
      (∀ c ∈ kv.1.data, urlSafeByte c.toNat = true) ∧
      (∀ c ∈ kv.2.data, urlSafeByte c.toNat = true) := by
  intro kv hkv
  unfold Signer.queryParams at hkv
  rcases List.mem_filterMap.mp hkv with ⟨p, hp, hparse⟩
  have hpsafe : ∀ c ∈ p, urlSafeByte c.toNat = true ∨ c = '=' := by
    intro c hc
    have hmem := mem_splitChar '&' q.data p hp c hc
    have hcq := hq c hmem.1
    simp only [safeQueryChar, Bool.or_eq_true, decide_eq_true_eq] at hcq
    rcases hcq with (h | h) | h
    · exact Or.inl h
    · exact absurd h hmem.2
    · exact Or.inr h
  have hsub : ∀ piece ∈ splitChar '=' p, ∀ c ∈ piece, urlSafeByte c.toNat = true := by
    intro piece hpiece c hc
    have h2 := mem_splitChar '=' p piece hpiece c hc
    rcases hpsafe c h2.1 with h | h
    · exact h
    · exact absurd h h2.2
  unfold Signer.parseParam at hparse
  cases hsp : splitChar '=' p with
  | nil => exact absurd hsp (splitChar_ne_nil '=' p)
  | cons k1 tail =>
    cases tail with
    | nil =>
      rw [hsp] at hparse
      replace hparse : some (url_encode ⟨k1⟩, "") = some kv := hparse
      have hkeq := Option.some.inj hparse
      subst hkeq
      have hk1 : ∀ c ∈ k1, urlSafeByte c.toNat = true :=
        hsub k1 (by rw [hsp]; exact List.mem_cons_self k1 [])
      constructor
      · intro c hc
        rw [show (url_encode ⟨k1⟩, "").1 = url_encode ⟨k1⟩ from rfl,
          url_encode_safe hk1] at hc
        exact hk1 c hc
      · intro c hc
        exact absurd hc (List.not_mem_nil c)
    | cons v1 tail2 =>
      cases tail2 with
      | nil =>
        rw [hsp] at hparse
        replace hparse : some (url_encode ⟨k1⟩, url_encode ⟨v1⟩) = some kv := hparse
        have hkeq := Option.some.inj hparse
        subst hkeq
        have hk1 : ∀ c ∈ k1, urlSafeByte c.toNat = true :=
          hsub k1 (by rw [hsp]; exact List.mem_cons_self k1 [v1])
        have hv1 : ∀ c ∈ v1, urlSafeByte c.toNat = true :=
          hsub v1 (by rw [hsp]; exact List.mem_cons_of_mem k1 (List.mem_cons_self v1 []))
        constructor
        · intro c hc
          rw [show (url_encode ⟨k1⟩, url_encode ⟨v1⟩).1 = url_encode ⟨k1⟩ from rfl,
            url_encode_safe hk1] at hc
          exact hk1 c hc
        · intro c hc
          rw [show (url_encode ⟨k1⟩, url_encode ⟨v1⟩).2 = url_encode ⟨v1⟩ from rfl,
            url_encode_safe hv1] at hc
          exact hv1 c hc
      | cons _ _ =>
        rw [hsp] at hparse
        replace hparse : (none : Option (String × String)) = some kv := hparse
        exact Option.noConfusion hparse

/-- C7 (amended): `create_canonical_query_string` is idempotent on query
strings whose characters are all left unchanged by the form-urlencoded
encoding (ASCII alphanumerics and `*-._`) or the separators `&` and `=`:
canonicalizing the canonical output returns it unchanged; in particular
canonicalizing `"b=2&a=1"` yields `"a=1&b=2"` and canonicalizing `""` yields
`""`.  (For general inputs idempotence fails because the first pass's `%`
and `+` output characters are re-escaped by a second pass.) -/
theorem create_canonical_query_string_idempotent_on_safe :
    (∀ (self : Signer) (q : String), (∀ c ∈ q.data, safeQueryChar c = true) →
      ∃ out, self.create_canonical_query_string q = Except.ok out ∧
        self.create_canonical_query_string out = Except.ok out)
  ∧ (Signer.new "i" "k" Option.none).create_canonical_query_string "b=2&a=1" =
      Except.ok "a=1&b=2"
  ∧ (Signer.new "i" "k" Option.none).create_canonical_query_string "" =
      Except.ok "" := by
  refine ⟨?_, by decide, rfl⟩
  intro self q hq
  by_cases hqe : q = ""
  · subst hqe
    exact ⟨"", rfl, rfl⟩
  · refine ⟨Signer.canonicalQueryString q, ?_, ?_⟩
    · unfold Signer.create_canonical_query_string
      rw [if_neg hqe]
    · by_cases houte : Signer.canonicalQueryString q = ""
      · rw [houte]
        rfl
      · unfold Signer.create_canonical_query_string
        rw [if_neg houte]
        have hl : List.Sorted Signer.paramKeyLe (Signer.sortedQueryParams q) :=
          List.sorted_insertionSort _ _
        have hlne : Signer.sortedQueryParams q ≠ [] := by
          intro hnil
          apply houte
          unfold Signer.canonicalQueryString
          rw [hnil]
          rfl
        have hsafe_l : ∀ kv ∈ Signer.sortedQueryParams q,
            (∀ c ∈ kv.1.data, urlSafeByte c.toNat = true) ∧
            (∀ c ∈ kv.2.data, urlSafeByte c.toNat = true) := by
          intro kv hkv
          exact queryParams_safe hq kv ((List.mem_insertionSort _).mp hkv)
        have hqp : Signer.queryParams (Signer.canonicalQueryString q) =
            Signer.sortedQueryParams q :=
          queryParams_render (Signer.sortedQueryParams q) hlne hsafe_l
        have hfix : Signer.canonicalQueryString (Signer.canonicalQueryString q) =
            Signer.canonicalQueryString q := by
          show joinSep "&" ((List.insertionSort Signer.paramKeyLe
            (Signer.queryParams (Signer.canonicalQueryString q))).map Signer.renderParam) =
            Signer.canonicalQueryString q
          rw [hqp, List.Sorted.insertionSort_eq hl]
          rfl
        rw [hfix]

/-- Witness for C7's idempotence at the concrete safe input `"b=2&a=1"`. -/
theorem query_idempotent_witness :
    (∀ c ∈ ("b=2&a=1" : String).data, safeQueryChar c = true)
  ∧ ∃ out, (Signer.new "i" "k" Option.none).create_canonical_query_string "b=2&a=1" =
        Except.ok out ∧
      (Signer.new "i" "k" Option.none).create_canonical_query_string out =
        Except.ok out :=
  ⟨by decide,
   create_canonical_query_string_idempotent_on_safe.1
     (Signer.new "i" "k" Option.none) "b=2&a=1" (by decide)⟩
